import Mathlib

/-!
Shallow embedding of the markdown parsing core (src/src/parser/mod.rs).

Bytes are modelled as `Nat` (values below 256 in practice), buffers as
`List Nat`, positions as `Nat`.  The cursor's interior mutability is made
explicit: every operation that moves the cursor returns the new cursor.
Rust panics (out-of-bounds slicing, `usize` underflow followed by a failed
bounds check, `unwrap`/`to_option` on the wrong variant) are modelled by
`Option`: `none` is a panic.  RAII `Mark` rollback is modelled explicitly
at each `return` point of the translated functions: a mark that was not
cancelled restores the saved position when the function returns.
-/

namespace MdRs

/-- Tri-state parse outcome: `Success` / `NoParse` / `End`
(matched / no-match / exhausted). -/
inductive ParseResult (T : Type) : Type where
  | Success : T → ParseResult T
  | NoParse : ParseResult T
  | End : ParseResult T
deriving Repr, DecidableEq

export ParseResult (Success NoParse End)

/-- Source `ParseResult::or_else`: the alternative thunk `f` is entered only in the
`NoParse` arm. -/
def ParseResult.or_else {T : Type} (x : ParseResult T) (f : Unit → ParseResult T) :
    ParseResult T :=
  match x with
  | Success r => Success r
  | End => End
  | NoParse => f ()

/-- Source `ParseResult::map`: transforms only the `Success` payload. -/
def ParseResult.map {T U : Type} (x : ParseResult T) (f : T → U) : ParseResult U :=
  match x with
  | Success r => Success (f r)
  | End => End
  | NoParse => NoParse

/-- Source `ParseResult::to_option`: `Success → Some`, `End → None`, `NoParse`
panics.  The outer `Option` models the panic (`none` = panic). -/
def ParseResult.to_option {T : Type} (x : ParseResult T) : Option (Option T) :=
  match x with
  | Success r => some (some r)
  | End => some none
  | NoParse => none

/-- Source `ParseResult::is_success`. -/
def ParseResult.is_success {T : Type} (x : ParseResult T) : Bool :=
  match x with
  | Success _ => true
  | _ => false

/-- Source `ParseResult::is_end`. -/
def ParseResult.is_end {T : Type} (x : ParseResult T) : Bool :=
  match x with
  | End => true
  | _ => false

/-- Source `Cursor`: a borrowed view of the byte buffer plus the current position
(the only mutable state). -/
structure Cursor where
  buf : List Nat
  pos : Nat
deriving Repr, DecidableEq

/-- Source `Cursor::new`. -/
def Cursor.new (buf : List Nat) : Cursor := ⟨buf, 0⟩

/-- Source `Cursor::available`: `pos < buf.len()`. -/
def Cursor.available (c : Cursor) : Bool := c.pos < c.buf.length

/-- Source `Cursor::advance` (unchecked against the buffer length, as in the
source). -/
def Cursor.advance (c : Cursor) (n : Nat) : Cursor := { c with pos := c.pos + n }

/-- Source `Cursor::retract`: saturates at zero (`if n > p { 0 } else { p - n }` is
truncated subtraction). -/
def Cursor.retract (c : Cursor) (n : Nat) : Cursor := { c with pos := c.pos - n }

/-- Source `Cursor::next`: bounded single-byte move with success flag. -/
def Cursor.next (c : Cursor) : Bool × Cursor :=
  if c.available then (true, c.advance 1) else (false, c)

/-- Source `Cursor::prev`. -/
def Cursor.prev (c : Cursor) : Cursor := c.retract 1

/-- The `Deref` impl: `**self` reads `buf[pos]`, panicking out of bounds
(`none` = panic). -/
def Cursor.deref (c : Cursor) : Option Nat := c.buf[c.pos]?

/-- Source `Cursor::current_byte`. -/
def Cursor.current_byte (c : Cursor) : Option Nat :=
  if c.available then c.buf[c.pos]? else none

/-- Source `Cursor::next_byte`: fused read-and-advance. -/
def Cursor.next_byte (c : Cursor) : Option Nat × Cursor :=
  if c.available then (c.buf[c.pos]?, c.advance 1) else (none, c)

/-- Source `Cursor::phantom_mark`: records the bare position. -/
def Cursor.phantom_mark (c : Cursor) : Nat := c.pos

/-- Source `Cursor::slice_to_now_from`: `&buf[pm.pos .. pos]`; `none` models the
slice-bounds panic. -/
def Cursor.slice_to_now_from (c : Cursor) (pm : Nat) : Option (List Nat) :=
  if pm ≤ c.pos ∧ c.pos ≤ c.buf.length then
    some ((c.buf.drop pm).take (c.pos - pm))
  else none

/-- Source `Cursor::slice_until_now_from`: `&buf[pm.pos .. pos - 1]`.  `pos` is a
`usize`, so when `pos = 0` the end index wraps past the buffer length; that
and any `start > end` or `end > len` range make the slice panic (`none`). -/
def Cursor.slice_until_now_from (c : Cursor) (pm : Nat) : Option (List Nat) :=
  if 1 ≤ c.pos ∧ pm ≤ c.pos - 1 ∧ c.pos - 1 ≤ c.buf.length then
    some ((c.buf.drop pm).take (c.pos - 1 - pm))
  else none

/-! ### Parser primitives (private methods of `MarkdownParser`)

Each loop of the source becomes a recursive function on `(buf, pos)`; a
function that creates a `Mark` applies its rollback explicitly at every
return point that does not cancel it. -/

/-- Loop body of `try_parse_empty_line`: consume bytes via `next_byte`;
space continues, newline cancels the mark and succeeds, anything else is
`NoParse`, end of input is `End`.  Returns the raw (pre-rollback) position
with the result. -/
def tpelLoop (buf : List Nat) (pos : Nat) : ParseResult Unit × Nat :=
  if h : pos < buf.length then
    let c := buf[pos]
    if c = 32 then tpelLoop buf (pos + 1)
    else if c = 10 then (Success (), pos + 1)
    else (NoParse, pos + 1)
  else (End, pos)
termination_by buf.length - pos
decreasing_by omega

/-- Source `MarkdownParser::try_parse_empty_line`: the mark is cancelled only on
`Success`; on `NoParse` and `End` its destructor restores the entry
position. -/
def try_parse_empty_line (c : Cursor) : ParseResult Unit × Cursor :=
  let r := tpelLoop c.buf c.pos
  match r.1 with
  | Success _ => (Success (), { c with pos := r.2 })
  | NoParse => (NoParse, c)
  | End => (End, c)

/-- Loop body of `try_skip_initial_spaces` with the space counter `n`:
while available, a counter already at 4 yields `NoParse`, a space bumps the
counter and advances, and any other byte cancels the mark and succeeds;
falling off the end of the buffer yields `End`. -/
def tsisLoop (buf : List Nat) (n pos : Nat) : ParseResult Unit × Nat :=
  if h : pos < buf.length then
    if 4 ≤ n then (NoParse, pos)
    else if buf[pos] = 32 then tsisLoop buf (n + 1) (pos + 1)
    else (Success (), pos)
  else (End, pos)
termination_by buf.length - pos
decreasing_by omega

/-- Source `MarkdownParser::try_skip_initial_spaces`: mark cancelled only on
`Success`. -/
def try_skip_initial_spaces (c : Cursor) : ParseResult Unit × Cursor :=
  let r := tsisLoop c.buf 0 c.pos
  match r.1 with
  | Success _ => (Success (), { c with pos := r.2 })
  | NoParse => (NoParse, c)
  | End => (End, c)

/-- Source `MarkdownParser::try_read_char`: reads one byte via `next_byte`;
`Success` if it equals `expected`, otherwise `prev()` then `NoParse`; `End`
when no byte is available. -/
def try_read_char (c : Cursor) (expected : Nat) : ParseResult Unit × Cursor :=
  if h : c.pos < c.buf.length then
    if c.buf[c.pos] = expected then (Success (), c.advance 1)
    else (NoParse, (c.advance 1).prev)
  else (End, c)

/-- Loop body of `lookahead_chars`: while `n > 0` and a byte is available,
a byte equal to `ch` advances and decrements `n`, any other byte breaks.
Returns the remaining count and the raw position. -/
def lacLoop (buf : List Nat) (ch : Nat) (n pos : Nat) : Nat × Nat :=
  match n with
  | 0 => (0, pos)
  | m + 1 =>
    if _h : pos < buf.length then
      if buf[pos] = ch then lacLoop buf ch m (pos + 1)
      else (m + 1, pos)
    else (m + 1, pos)

/-- Source `MarkdownParser::lookahead_chars`: the mark `_m` is never cancelled, so
the cursor position is restored regardless of outcome; the result is
`n == 0` after the loop. -/
def lookahead_chars (c : Cursor) (n : Nat) (ch : Nat) : Bool × Cursor :=
  (decide ((lacLoop c.buf ch n c.pos).1 = 0), c)

/-- Loop body of `read_line` (and the position part of `read_line_to`):
consume bytes until just past a newline, or to the end of the view.
Callers enter it with a byte available.  Returns the final position. -/
def rlLoop (buf : List Nat) (pos : Nat) : Nat :=
  if h : pos < buf.length then
    if buf[pos] = 10 then pos + 1
    else rlLoop buf (pos + 1)
  else pos
termination_by buf.length - pos
decreasing_by omega

/-- Source `MarkdownParser::read_line`: `End` when nothing is available at entry,
otherwise consume through the next newline (inclusive) or to the end of the
view and return `Success`. -/
def read_line (c : Cursor) : ParseResult Unit × Cursor :=
  if c.pos < c.buf.length then (Success (), { c with pos := rlLoop c.buf c.pos })
  else (End, c)

/-- Loop body of `read_line_to`: as `rlLoop`, additionally pushing each
consumed byte onto `dest`. -/
def rltLoop (buf : List Nat) (pos : Nat) (dest : List Nat) : Nat × List Nat :=
  if h : pos < buf.length then
    let c := buf[pos]
    if c = 10 then (pos + 1, dest ++ [c])
    else rltLoop buf (pos + 1) (dest ++ [c])
  else (pos, dest)
termination_by buf.length - pos
decreasing_by omega

/-- Source `MarkdownParser::read_line_to`: like `read_line`, but appends the
consumed bytes to the caller-supplied destination. -/
def read_line_to (c : Cursor) (dest : List Nat) :
    ParseResult Unit × Cursor × List Nat :=
  if c.pos < c.buf.length then
    let r := rltLoop c.buf c.pos dest
    (Success (), { c with pos := r.1 }, r.2)
  else (End, c, dest)

/-- Loop body of `parse` with matcher `m` and phantom mark `pm`: a matching
byte is consumed; at the first non-matching byte the function returns
`NoParse` for an empty `slice_until_now_from pm` and `Success` of the slice
otherwise; when the view is exhausted it returns `Success` of that slice.
The slice call can panic (`none`). -/
def parseLoop (m : Nat → Bool) (buf : List Nat) (pm pos : Nat) :
    Option (ParseResult (List Nat) × Nat) :=
  if h : pos < buf.length then
    if m buf[pos] then parseLoop m buf pm (pos + 1)
    else
      match Cursor.slice_until_now_from ⟨buf, pos⟩ pm with
      | none => none
      | some s => if s.isEmpty then some (NoParse, pos) else some (Success s, pos)
  else
    match Cursor.slice_until_now_from ⟨buf, pos⟩ pm with
    | none => none
    | some s => some (Success s, pos)
termination_by buf.length - pos
decreasing_by omega

/-- Source `MarkdownParser::parse`: `End` when no byte is available at entry,
otherwise the maximal-run scan starting from a phantom mark at the current
position (`none` = panic inside the loop). -/
def parse (m : Nat → Bool) (c : Cursor) : Option (ParseResult (List Nat) × Cursor) :=
  if c.pos < c.buf.length then
    match parseLoop m c.buf c.phantom_mark c.pos with
    | none => none
    | some r => some (r.1, { c with pos := r.2 })
  else some (End, c)

/-- Loop body of `skip`: identical consumption to `parseLoop` but with no
slice: the first non-matching byte (or the end of the view) yields
`Success ()`. -/
def skipLoop (m : Nat → Bool) (buf : List Nat) (pos : Nat) : Nat :=
  if h : pos < buf.length then
    if m buf[pos] then skipLoop m buf (pos + 1) else pos
  else pos
termination_by buf.length - pos
decreasing_by omega

/-- Source `MarkdownParser::skip`: `End` when no byte is available at entry,
otherwise discard the maximal matching run and return `Success ()`. -/
def skip (m : Nat → Bool) (c : Cursor) : ParseResult Unit × Cursor :=
  if c.pos < c.buf.length then (Success (), { c with pos := skipLoop m c.buf c.pos })
  else (End, c)

/-- A digit-byte matcher (ASCII `'0'..='9'`), the matcher used by the
spec's scan-and-capture scenario. -/
def isDigitByte (b : Nat) : Bool := 48 ≤ b && b ≤ 57

/-! ### Parser engine

`Block` (from the external `tokens` module), `MarkdownConfig` (from the
`config` module) and `LinkMap` are opaque to the core, so the engine is
parametric in them.  The pending-output `VecDeque` is a front-at-head
list. -/

/-- Source `MarkdownParser`: cursor, FIFO pending-output queue, configuration, and
the optional link table (present only at the root). -/
structure MarkdownParser (Block Config LinkMap : Type) : Type where
  cur : Cursor
  event_queue : List Block
  config : Config
  link_map : Option LinkMap

/-- Source `MarkdownParser::fork`: a fresh engine over `buffer` with the parent's
configuration, an empty queue, and no link table. -/
def MarkdownParser.fork {B C L : Type} (p : MarkdownParser B C L)
    (buffer : List Nat) : MarkdownParser B C L :=
  { cur := Cursor.new buffer
    event_queue := []
    config := p.config
    link_map := none }

/-- Source `MarkdownParser::fix_links`: calls the payload's `fix_links_opt` with
`self.link_map.as_ref()` and returns the payload.  The trait method is
passed explicitly as `flo`. -/
def MarkdownParser.fix_links {B C L F : Type} (p : MarkdownParser B C L)
    (flo : F → Option L → F) (fl : F) : F :=
  flo fl p.link_map

/-- Source `MarkdownParser::enqueue_event`: push onto the back of the queue. -/
def MarkdownParser.enqueue_event {B C L : Type} (p : MarkdownParser B C L)
    (block : B) : MarkdownParser B C L :=
  { p with event_queue := p.event_queue ++ [block] }

/-- Source `Iterator::next` for `MarkdownParser`: pop the queue front; only when
it was empty, convert the external `parse_block()` outcome (passed here as
the value `pb`) through `to_option`.  The outer `Option` models the panic
`to_option` raises on a bare `NoParse`; the inner `Option` is the
iterator's own `Some`/`None`. -/
def iterNext {B C L : Type} (p : MarkdownParser B C L) (pb : ParseResult B) :
    Option (Option B × MarkdownParser B C L) :=
  match p.event_queue with
  | b :: rest => some (some b, { p with event_queue := rest })
  | [] =>
    match pb.to_option with
    | some o => some (o, p)
    | none => none

/-! ### General helper lemmas -/

/-- A cursor is rebuilt unchanged when only its position is rewritten to
its own value. -/
theorem cursor_eta (c : Cursor) : ({ c with pos := c.pos } : Cursor) = c := rfl

/-- The `skip` scan never produces `NoParse`. -/
theorem skip_never_noparse (m : Nat → Bool) (c : Cursor) :
    (skip m c).1 ≠ NoParse := by
  unfold skip
  by_cases h : c.pos < c.buf.length <;> simp [h]

/-- With no byte available at entry, `parse` returns `End` for every
matcher. -/
theorem parse_end_when_exhausted (m : Nat → Bool) (c : Cursor)
    (h : ¬ c.pos < c.buf.length) : parse m c = some (End, c) := by
  simp [parse, h]

/-! ### Claim theorems -/

/-- C3: `or_else` tries the alternative thunk exactly on `NoParse`:
`NoParse.or_else f = f ()`; `Success v` and `End` are returned unchanged,
and in those two cases the result does not depend on the thunk at all
(left-biased short circuit, `End` wins over all remaining alternatives). -/
theorem or_else_short_circuit {T : Type} (x : ParseResult T)
    (f g : Unit → ParseResult T) :
    (ParseResult.or_else NoParse f = f ()) ∧
    (∀ v, x = Success v → x.or_else f = Success v) ∧
    (x = End → x.or_else f = End) ∧
    (x ≠ NoParse → x.or_else f = x.or_else g) := by
  refine ⟨rfl, ?_, ?_, ?_⟩
  · rintro v rfl; rfl
  · rintro rfl; rfl
  · intro hx; cases x with
    | Success v => rfl
    | End => rfl
    | NoParse => exact absurd rfl hx

/-- Witness for C3 at `x = Success 3`: the thunk is irrelevant once a match
has been produced. -/
theorem or_else_short_circuit_witness :
    (Success 3 : ParseResult Nat).or_else (fun _ => NoParse) =
      (Success 3 : ParseResult Nat).or_else (fun _ => End) :=
  (or_else_short_circuit (Success 3) (fun _ => NoParse) (fun _ => End)).2.2.2
    (by decide)

/-- C9: `fork` builds an engine with the parent's configuration, an empty
pending-output queue and no link table; consequently `fix_links` invoked
through a forked engine passes `none` (no table) to the payload's
`fix_links_opt`, so only the table-owning root can resolve references. -/
theorem fork_fresh_engine {B C L F : Type} (p : MarkdownParser B C L)
    (buffer : List Nat) (flo : F → Option L → F) (fl : F) :
    (p.fork buffer).config = p.config ∧
    (p.fork buffer).event_queue = [] ∧
    (p.fork buffer).link_map = none ∧
    (p.fork buffer).fix_links flo fl = flo fl none :=
  ⟨rfl, rfl, rfl, rfl⟩

/-- Witness for C9 at a concrete parent engine over `Nat` payloads. -/
theorem fork_fresh_engine_witness :
    ((⟨Cursor.new [97], [4], 9, some 1⟩ : MarkdownParser Nat Nat Nat).fork
        [7]).config = (⟨Cursor.new [97], [4], 9, some 1⟩ :
          MarkdownParser Nat Nat Nat).config ∧
    ((⟨Cursor.new [97], [4], 9, some 1⟩ : MarkdownParser Nat Nat Nat).fork
        [7]).event_queue = [] ∧
    ((⟨Cursor.new [97], [4], 9, some 1⟩ : MarkdownParser Nat Nat Nat).fork
        [7]).link_map = none ∧
    ((⟨Cursor.new [97], [4], 9, some 1⟩ : MarkdownParser Nat Nat Nat).fork
        [7]).fix_links (fun f _ => f + 1) 5 = (fun (f : Nat) (_ : Option Nat) => f + 1) 5 none :=
  fork_fresh_engine (⟨Cursor.new [97], [4], 9, some 1⟩ : MarkdownParser Nat Nat Nat)
    [7] (fun f _ => f + 1) 5

/-- C2: `Iterator::next` pops the front of the FIFO queue first — when the
queue is non-empty the result does not depend on the block-grammar outcome
at all — and only on an empty queue converts that outcome: `Success r`
yields `r`, `End` ends the sequence (`none` item), and a bare `NoParse`
panics (outer `none`) instead of being forwarded. -/
theorem next_queue_then_parse_block {B C L : Type} (p : MarkdownParser B C L)
    (pb pb2 : ParseResult B) :
    (∀ b rest, p.event_queue = b :: rest →
        iterNext p pb = some (some b, { p with event_queue := rest }) ∧
        iterNext p pb = iterNext p pb2) ∧
    (p.event_queue = [] →
        (∀ r, pb = Success r → iterNext p pb = some (some r, p)) ∧
        (pb = End → iterNext p pb = some (none, p)) ∧
        (pb = NoParse → iterNext p pb = none)) := by
  constructor
  · intro b rest hq
    constructor <;> simp [iterNext, hq]
  · intro hq
    refine ⟨?_, ?_, ?_⟩
    · rintro r rfl; simp [iterNext, hq, ParseResult.to_option]
    · rintro rfl; simp [iterNext, hq, ParseResult.to_option]
    · rintro rfl; simp [iterNext, hq, ParseResult.to_option]

/-- Witness for C2 at a one-element queue: the queued block is produced and
the (contract-violating) `NoParse` outcome is never consulted. -/
theorem next_queue_then_parse_block_witness :
    iterNext (⟨Cursor.new [], [7], 0, none⟩ : MarkdownParser Nat Nat Nat) NoParse =
      some (some 7, { (⟨Cursor.new [], [7], 0, none⟩ : MarkdownParser Nat Nat Nat) with
        event_queue := ([] : List Nat) }) :=
  ((next_queue_then_parse_block
      (⟨Cursor.new [], [7], 0, none⟩ : MarkdownParser Nat Nat Nat)
      NoParse End).1 7 [] rfl).1

/-- A `NoParse` result of `try_read_char` carries the entry cursor (the
`prev()` call undoes the `next_byte` advance). -/
theorem try_read_char_noparse_rollback (c : Cursor) (expected : Nat) :
    (try_read_char c expected).1 = NoParse →
    (try_read_char c expected).2 = c := by
  unfold try_read_char
  by_cases h : c.pos < c.buf.length
  · by_cases he : c.buf[c.pos] = expected <;>
      simp [h, he, Cursor.advance, Cursor.prev, Cursor.retract]
  · simp [h]

/-- A `NoParse` result of `try_parse_empty_line` carries the entry cursor
(the mark was not cancelled, so its destructor restored the position). -/
theorem try_parse_empty_line_noparse_rollback (c : Cursor) :
    (try_parse_empty_line c).1 = NoParse → (try_parse_empty_line c).2 = c := by
  unfold try_parse_empty_line
  cases h : (tpelLoop c.buf c.pos).1 <;> simp [h]

/-- A `NoParse` result of `try_skip_initial_spaces` carries the entry
cursor. -/
theorem try_skip_initial_spaces_noparse_rollback (c : Cursor) :
    (try_skip_initial_spaces c).1 = NoParse →
    (try_skip_initial_spaces c).2 = c := by
  unfold try_skip_initial_spaces
  cases h : (tsisLoop c.buf 0 c.pos).1 <;> simp [h]

/-- C1 (failing evaluation): the scan-and-capture `parse` slices with
`slice_until_now_from`, whose right end is one byte short of the current
position even though the non-matching byte was never consumed.  On
`"123abc"` with a digit matcher it therefore returns the slice `"12"`
(bytes `[49, 50]`), not `"123"`; on `"abc"` the underlying range
`buf[0 .. 0 - 1]` wraps below zero in `usize` arithmetic and the slice
panics (`none`) instead of producing `NoParse`.  On an exhausted view it
does return `End` before matching. -/
theorem parse_digit_scan_eval :
    parse isDigitByte (Cursor.new [49, 50, 51, 97, 98, 99]) =
      some (Success [49, 50], ⟨[49, 50, 51, 97, 98, 99], 3⟩) ∧
    parse isDigitByte (Cursor.new [97, 98, 99]) = none ∧
    parse isDigitByte (Cursor.new []) = some (End, Cursor.new []) := by
  refine ⟨?_, ?_, ?_⟩ <;>
    simp [parse, parseLoop, Cursor.new, Cursor.phantom_mark,
      Cursor.slice_until_now_from, isDigitByte]

/-- C6 (failing evaluation): the primitives `try_read_char`,
`try_parse_empty_line` and `try_skip_initial_spaces` do restore the entry
position on `NoParse` (shown at representative inputs), but `parse` does
not: with a digit matcher over `"1a"` it consumes the `'1'`, then the
mis-sliced `buf[0 .. 0]` is empty, so it returns `NoParse` with the cursor
left at position 1 instead of the entry position 0. -/
theorem noparse_rollback_eval :
    try_read_char (Cursor.new [97, 98]) 98 = (NoParse, Cursor.new [97, 98]) ∧
    try_parse_empty_line (Cursor.new [32, 32, 88, 10]) =
      (NoParse, Cursor.new [32, 32, 88, 10]) ∧
    try_skip_initial_spaces (Cursor.new [32, 32, 32, 32, 88]) =
      (NoParse, Cursor.new [32, 32, 32, 32, 88]) ∧
    parse isDigitByte (Cursor.new [49, 97]) = some (NoParse, ⟨[49, 97], 1⟩) ∧
    parse isDigitByte (Cursor.new [49, 97]) ≠
      some (NoParse, Cursor.new [49, 97]) := by
  refine ⟨?_, ?_, ?_, ?_, ?_⟩ <;>
    simp [try_read_char, try_parse_empty_line, tpelLoop,
      try_skip_initial_spaces, tsisLoop, parse, parseLoop, Cursor.new,
      Cursor.phantom_mark, Cursor.slice_until_now_from, Cursor.advance,
      Cursor.prev, Cursor.retract, isDigitByte]

/-- Characterization of the `try_skip_initial_spaces` loop on a view whose
remaining input starts with exactly `k` spaces followed by a non-space
byte: with the counter starting at `n`, the loop succeeds at `pos + k` when
`n + k ≤ 3` and otherwise stops with `NoParse` after `4 - n` spaces. -/
theorem tsisLoop_spaces (buf : List Nat) (k : Nat) :
    ∀ n pos, (∀ i, i < k → buf[pos + i]? = some 32) →
    ∀ b, buf[pos + k]? = some b → b ≠ 32 →
    tsisLoop buf n pos =
      if n + k ≤ 3 then (Success (), pos + k) else (NoParse, pos + (4 - n)) := by
  induction k with
  | zero =>
    intro n pos _ b hb hbs
    have hb0 : buf[pos]? = some b := by simpa using hb
    obtain ⟨hlt, hval⟩ := List.getElem?_eq_some.mp hb0
    unfold tsisLoop
    rw [dif_pos hlt]
    by_cases hn : 4 ≤ n
    · rw [if_pos hn, if_neg (by omega : ¬ n + 0 ≤ 3)]
      have h4 : 4 - n = 0 := by omega
      simp [h4]
    · rw [if_neg hn, if_neg (by rw [hval]; exact hbs)]
      rw [if_pos (by omega : n + 0 ≤ 3)]
      simp
  | succ k ih =>
    intro n pos hsp b hb hbs
    have h0 : buf[pos]? = some 32 := by simpa using hsp 0 (Nat.succ_pos k)
    obtain ⟨hlt, hval⟩ := List.getElem?_eq_some.mp h0
    unfold tsisLoop
    rw [dif_pos hlt]
    by_cases hn : 4 ≤ n
    · rw [if_pos hn, if_neg (by omega : ¬ n + (k + 1) ≤ 3)]
      have h4 : 4 - n = 0 := by omega
      simp [h4]
    · rw [if_neg hn, if_pos hval]
      have hsp1 : ∀ i, i < k → buf[pos + 1 + i]? = some 32 := by
        intro i hi
        have he : pos + 1 + i = pos + (i + 1) := by omega
        rw [he]
        exact hsp (i + 1) (by omega)
      have hb1 : buf[pos + 1 + k]? = some b := by
        have he : pos + 1 + k = pos + (k + 1) := by omega
        rw [he]; exact hb
      rw [ih (n + 1) (pos + 1) hsp1 b hb1 hbs]
      by_cases hle : n + (k + 1) ≤ 3
      · rw [if_pos (by omega : n + 1 + k ≤ 3), if_pos hle]
        have he : pos + 1 + k = pos + (k + 1) := by omega
        rw [he]
      · rw [if_neg (by omega : ¬ n + 1 + k ≤ 3), if_neg hle]
        have he : pos + 1 + (4 - (n + 1)) = pos + (4 - n) := by omega
        rw [he]

/-- C4: on a view whose remaining input begins with exactly `k` spaces
followed by a non-space byte, `try_skip_initial_spaces` returns `Success`
having consumed exactly the `k` spaces when `k ≤ 3`, and `NoParse` with the
cursor rolled back to the entry position when `k ≥ 4`. -/
theorem skip_initial_spaces_threshold (buf : List Nat) (pos k : Nat)
    (hsp : ∀ i, i < k → buf[pos + i]? = some 32)
    (b : Nat) (hb : buf[pos + k]? = some b) (hbs : b ≠ 32) :
    (k ≤ 3 → try_skip_initial_spaces ⟨buf, pos⟩ = (Success (), ⟨buf, pos + k⟩)) ∧
    (4 ≤ k → try_skip_initial_spaces ⟨buf, pos⟩ = (NoParse, ⟨buf, pos⟩)) := by
  have h := tsisLoop_spaces buf k 0 pos hsp b hb hbs
  constructor
  · intro hk
    rw [if_pos (by omega : 0 + k ≤ 3)] at h
    simp [try_skip_initial_spaces, h]
  · intro hk
    rw [if_neg (by omega : ¬ 0 + k ≤ 3)] at h
    simp [try_skip_initial_spaces, h]

/-- Witness for C4: two leading spaces before a non-space are consumed. -/
theorem skip_initial_spaces_threshold_witness :
    try_skip_initial_spaces ⟨[32, 32, 88], 0⟩ = (Success (), ⟨[32, 32, 88], 2⟩) :=
  (skip_initial_spaces_threshold [32, 32, 88] 0 2 (by decide) 88 (by decide)
    (by decide)).1 (by decide)

/-- Characterization of the `try_parse_empty_line` loop on a view whose
remaining input starts with exactly `k` spaces followed by a non-space
byte `b`: the loop consumes through that byte and yields `Success` when it
is the newline and `NoParse` otherwise. -/
theorem tpelLoop_spaces_then (buf : List Nat) (k : Nat) :
    ∀ pos, (∀ i, i < k → buf[pos + i]? = some 32) →
    ∀ b, buf[pos + k]? = some b → b ≠ 32 →
    tpelLoop buf pos = (if b = 10 then Success () else NoParse, pos + k + 1) := by
  induction k with
  | zero =>
    intro pos _ b hb hbs
    have hb0 : buf[pos]? = some b := by simpa using hb
    obtain ⟨hlt, hval⟩ := List.getElem?_eq_some.mp hb0
    unfold tpelLoop
    rw [dif_pos hlt]
    by_cases h10 : b = 10 <;> simp [hval, hbs, h10]
  | succ k ih =>
    intro pos hsp b hb hbs
    have h0 : buf[pos]? = some 32 := by simpa using hsp 0 (Nat.succ_pos k)
    obtain ⟨hlt, hval⟩ := List.getElem?_eq_some.mp h0
    unfold tpelLoop
    rw [dif_pos hlt]
    have hsp1 : ∀ i, i < k → buf[pos + 1 + i]? = some 32 := by
      intro i hi
      have he : pos + 1 + i = pos + (i + 1) := by omega
      rw [he]
      exact hsp (i + 1) (by omega)
    have hb1 : buf[pos + 1 + k]? = some b := by
      have he : pos + 1 + k = pos + (k + 1) := by omega
      rw [he]; exact hb
    have he : pos + 1 + k + 1 = pos + (k + 1) + 1 := by omega
    rw [ih (pos + 1) hsp1 b hb1 hbs]
    simp [hval, he]

/-- Completeness of the previous characterization: whenever the
`try_parse_empty_line` loop succeeds, the remaining input was a (possibly
empty) run of spaces followed by a newline. -/
theorem tpelLoop_success_shape (buf : List Nat) :
    ∀ fuel pos, buf.length - pos ≤ fuel →
    (tpelLoop buf pos).1 = Success () →
    ∃ k, (∀ i, i < k → buf[pos + i]? = some 32) ∧ buf[pos + k]? = some 10 := by
  intro fuel
  induction fuel with
  | zero =>
    intro pos hf hs
    have hnl : ¬ pos < buf.length := by omega
    unfold tpelLoop at hs
    rw [dif_neg hnl] at hs
    exact absurd hs (by simp)
  | succ fuel ih =>
    intro pos hf hs
    by_cases hlt : pos < buf.length
    · unfold tpelLoop at hs
      rw [dif_pos hlt] at hs
      by_cases h32 : buf[pos] = 32
      · simp only [h32, if_pos rfl] at hs
        obtain ⟨k, hsp, hnl⟩ := ih (pos + 1) (by omega) hs
        refine ⟨k + 1, ?_, ?_⟩
        · intro i hi
          cases i with
          | zero =>
            simpa using (List.getElem?_eq_getElem hlt).trans (by rw [h32])
          | succ j =>
            have he : pos + (j + 1) = pos + 1 + j := by omega
            rw [he]
            exact hsp j (by omega)
        · have he : pos + (k + 1) = pos + 1 + k := by omega
          rw [he]
          exact hnl
      · by_cases h10 : buf[pos] = 10
        · refine ⟨0, by omega, ?_⟩
          simpa using (List.getElem?_eq_getElem hlt).trans (by rw [h10])
        · simp [h32, h10] at hs
    · unfold tpelLoop at hs
      rw [dif_neg hlt] at hs
      exact absurd hs (by simp)

/-- C5: `try_parse_empty_line` returns `Success` exactly when the remainder
of the current line is zero or more spaces followed by a newline, in which
case it consumes through and including that newline; a non-space non-newline
byte after the run of spaces yields `NoParse` with the cursor restored to
the entry position. -/
theorem empty_line_rule (buf : List Nat) (pos : Nat) :
    (∀ k, (∀ i, i < k → buf[pos + i]? = some 32) → buf[pos + k]? = some 10 →
        try_parse_empty_line ⟨buf, pos⟩ = (Success (), ⟨buf, pos + k + 1⟩)) ∧
    (∀ k b, (∀ i, i < k → buf[pos + i]? = some 32) → buf[pos + k]? = some b →
        b ≠ 32 → b ≠ 10 →
        try_parse_empty_line ⟨buf, pos⟩ = (NoParse, ⟨buf, pos⟩)) ∧
    ((try_parse_empty_line ⟨buf, pos⟩).1 = Success () →
        ∃ k, (∀ i, i < k → buf[pos + i]? = some 32) ∧ buf[pos + k]? = some 10) := by
  refine ⟨?_, ?_, ?_⟩
  · intro k hsp h10
    have h := tpelLoop_spaces_then buf k pos hsp 10 h10 (by decide)
    rw [if_pos rfl] at h
    simp [try_parse_empty_line, h]
  · intro k b hsp hb hbs hb10
    have h := tpelLoop_spaces_then buf k pos hsp b hb hbs
    rw [if_neg hb10] at h
    simp [try_parse_empty_line, h]
  · intro hs
    have hl : (tpelLoop buf pos).1 = Success () := by
      cases hq : (tpelLoop buf pos).1 with
      | Success u => cases u; rfl
      | NoParse => simp [try_parse_empty_line, hq] at hs
      | End => simp [try_parse_empty_line, hq] at hs
    exact tpelLoop_success_shape buf (buf.length - pos) pos le_rfl hl

/-- Witness for C5 on the spec scenario `"   \nX"`: success, cursor just
past the newline. -/
theorem empty_line_rule_witness :
    try_parse_empty_line ⟨[32, 32, 32, 10, 88], 0⟩ =
      (Success (), ⟨[32, 32, 32, 10, 88], 4⟩) :=
  (empty_line_rule [32, 32, 32, 10, 88] 0).1 3 (by decide) (by decide)

/-- The `lookahead_chars` loop exhausts its count exactly when the next `n`
bytes all equal `ch`. -/
theorem lacLoop_zero_iff (buf : List Nat) (ch : Nat) :
    ∀ n pos, (lacLoop buf ch n pos).1 = 0 ↔
      ∀ i, i < n → buf[pos + i]? = some ch := by
  intro n
  induction n with
  | zero =>
    intro pos
    simp [lacLoop]
  | succ m ih =>
    intro pos
    unfold lacLoop
    by_cases hlt : pos < buf.length
    · rw [dif_pos hlt]
      by_cases hc : buf[pos] = ch
      · rw [if_pos hc]
        constructor
        · intro h i hi
          cases i with
          | zero =>
            simpa using (List.getElem?_eq_getElem hlt).trans (by rw [hc])
          | succ j =>
            have he : pos + (j + 1) = pos + 1 + j := by omega
            rw [he]
            exact (ih (pos + 1)).mp h j (by omega)
        · intro h
          refine (ih (pos + 1)).mpr ?_
          intro j hj
          have he : pos + 1 + j = pos + (j + 1) := by omega
          rw [he]
          exact h (j + 1) (by omega)
      · rw [if_neg hc]
        simp only [Nat.succ_ne_zero]
        constructor
        · intro h
          exact absurd h (by simp)
        · intro h
          have h0 : buf[pos]? = some ch := by simpa using h 0 (Nat.succ_pos m)
          obtain ⟨_, hval⟩ := List.getElem?_eq_some.mp h0
          exact absurd hval hc
    · rw [dif_neg hlt]
      simp only [Nat.succ_ne_zero]
      constructor
      · intro h
        exact absurd h (by simp)
      · intro h
        have h0 : buf[pos]? = some ch := by simpa using h 0 (Nat.succ_pos m)
        obtain ⟨hl, _⟩ := List.getElem?_eq_some.mp h0
        exact absurd hl hlt

/-- C7: `lookahead_chars` is a pure lookahead — the cursor it returns is
exactly the entry cursor regardless of outcome — and it answers `true` if
and only if the next `n` bytes at the current position all equal `ch`. -/
theorem lookahead_pure (buf : List Nat) (pos n ch : Nat) :
    (lookahead_chars ⟨buf, pos⟩ n ch).2 = ⟨buf, pos⟩ ∧
    ((lookahead_chars ⟨buf, pos⟩ n ch).1 = true ↔
      ∀ i, i < n → buf[pos + i]? = some ch) := by
  constructor
  · rfl
  · simp [lookahead_chars, lacLoop_zero_iff]

/-- Witness for C7 at the three-star lookahead over `"***a"`. -/
theorem lookahead_pure_witness :
    (lookahead_chars ⟨[42, 42, 42, 97], 0⟩ 3 42).2 = ⟨[42, 42, 42, 97], 0⟩ ∧
    ((lookahead_chars ⟨[42, 42, 42, 97], 0⟩ 3 42).1 = true ↔
      ∀ i, i < 3 → [42, 42, 42, 97][0 + i]? = some 42) :=
  lookahead_pure [42, 42, 42, 97] 0 3 42

/-- Unfolding of the `read_line` loop at a newline byte. -/
theorem rlLoop_nl (buf : List Nat) (pos : Nat) (hlt : pos < buf.length)
    (h10 : buf[pos] = 10) : rlLoop buf pos = pos + 1 := by
  rw [rlLoop.eq_def, dif_pos hlt, if_pos h10]

/-- Unfolding of the `read_line` loop at a non-newline byte. -/
theorem rlLoop_step (buf : List Nat) (pos : Nat) (hlt : pos < buf.length)
    (h10 : ¬ buf[pos] = 10) : rlLoop buf pos = rlLoop buf (pos + 1) := by
  rw [rlLoop.eq_def, dif_pos hlt, if_neg h10]

/-- Unfolding of the `read_line` loop at the end of the view. -/
theorem rlLoop_stop (buf : List Nat) (pos : Nat) (hlt : ¬ pos < buf.length) :
    rlLoop buf pos = pos := by
  rw [rlLoop.eq_def, dif_neg hlt]

/-- The `read_line` loop never moves backwards. -/
theorem rlLoop_ge (buf : List Nat) :
    ∀ fuel pos, buf.length - pos ≤ fuel → pos ≤ rlLoop buf pos := by
  intro fuel
  induction fuel with
  | zero =>
    intro pos hf
    have hlt : ¬ pos < buf.length := by omega
    rw [rlLoop_stop buf pos hlt]
  | succ fuel ih =>
    intro pos hf
    by_cases hlt : pos < buf.length
    · by_cases h10 : buf[pos] = 10
      · rw [rlLoop_nl buf pos hlt h10]; omega
      · rw [rlLoop_step buf pos hlt h10]
        have := ih (pos + 1) (by omega)
        omega
    · rw [rlLoop_stop buf pos hlt]

/-- With a byte available at entry, the `read_line` loop stops just past
the first newline in the remaining input, or at the end of the view when
no newline remains. -/
theorem rlLoop_line_spec (buf : List Nat) :
    ∀ fuel pos, buf.length - pos ≤ fuel → pos < buf.length →
    pos < rlLoop buf pos ∧ rlLoop buf pos ≤ buf.length ∧
    ((buf[rlLoop buf pos - 1]? = some 10 ∧
        ∀ i, pos ≤ i → i < rlLoop buf pos - 1 → buf[i]? ≠ some 10) ∨
     (rlLoop buf pos = buf.length ∧
        ∀ i, pos ≤ i → i < buf.length → buf[i]? ≠ some 10)) := by
  intro fuel
  induction fuel with
  | zero =>
    intro pos hf hlt
    omega
  | succ fuel ih =>
    intro pos hf hlt
    by_cases h10 : buf[pos] = 10
    · have hr := rlLoop_nl buf pos hlt h10
      rw [hr]
      refine ⟨by omega, by omega, Or.inl ⟨?_, ?_⟩⟩
      · simpa using (List.getElem?_eq_getElem hlt).trans (by rw [h10])
      · intro i hi1 hi2
        exact absurd hi1 (by omega)
    · have hr := rlLoop_step buf pos hlt h10
      rw [hr]
      by_cases hlt1 : pos + 1 < buf.length
      · obtain ⟨ha, hb, hc⟩ := ih (pos + 1) (by omega) hlt1
        refine ⟨by omega, hb, ?_⟩
        cases hc with
        | inl hl =>
          refine Or.inl ⟨hl.1, ?_⟩
          intro i hi1 hi2
          rcases Nat.eq_or_lt_of_le hi1 with he | hlt2
          · rw [← he, List.getElem?_eq_getElem hlt]
            simp [h10]
          · exact hl.2 i (by omega) hi2
        | inr hrr =>
          refine Or.inr ⟨hrr.1, ?_⟩
          intro i hi1 hi2
          rcases Nat.eq_or_lt_of_le hi1 with he | hlt2
          · rw [← he, List.getElem?_eq_getElem hlt]
            simp [h10]
          · exact hrr.2 i (by omega) hi2
      · have hend := rlLoop_stop buf (pos + 1) hlt1
        rw [hend]
        refine ⟨by omega, by omega, Or.inr ⟨by omega, ?_⟩⟩
        intro i hi1 hi2
        have hie : i = pos := by omega
        rw [hie, List.getElem?_eq_getElem hlt]
        simp [h10]

/-- The destination-appending line scan computes the same final position as
the discarding one and appends exactly the consumed bytes. -/
theorem rltLoop_eq (buf : List Nat) :
    ∀ fuel pos dest, buf.length - pos ≤ fuel →
    rltLoop buf pos dest =
      (rlLoop buf pos, dest ++ (buf.drop pos).take (rlLoop buf pos - pos)) := by
  intro fuel
  induction fuel with
  | zero =>
    intro pos dest hf
    have hlt : ¬ pos < buf.length := by omega
    rw [rltLoop.eq_def, dif_neg hlt, rlLoop_stop buf pos hlt]
    simp
  | succ fuel ih =>
    intro pos dest hf
    by_cases hlt : pos < buf.length
    · by_cases h10 : buf[pos] = 10
      · have hr := rlLoop_nl buf pos hlt h10
        rw [rltLoop.eq_def, dif_pos hlt]
        simp [h10, hr, List.drop_eq_getElem_cons hlt]
      · have hr := rlLoop_step buf pos hlt h10
        have hge : pos + 1 ≤ rlLoop buf (pos + 1) :=
          rlLoop_ge buf (buf.length - (pos + 1)) (pos + 1) le_rfl
        have htk : (buf.drop pos).take (rlLoop buf (pos + 1) - pos) =
            buf[pos] :: (buf.drop (pos + 1)).take (rlLoop buf (pos + 1) - (pos + 1)) := by
          rw [List.drop_eq_getElem_cons hlt]
          have he2 : rlLoop buf (pos + 1) - pos =
              (rlLoop buf (pos + 1) - (pos + 1)) + 1 := by omega
          rw [he2, List.take_succ_cons]
        have hih := ih (pos + 1) (dest ++ [buf[pos]]) (by omega)
        rw [rltLoop.eq_def, dif_pos hlt]
        simp [h10, hih, hr, htk]
    · have hf0 : buf.length - pos ≤ 0 := by omega
      have hlt0 : ¬ pos < buf.length := hlt
      rw [rltLoop.eq_def, dif_neg hlt0, rlLoop_stop buf pos hlt0]
      simp

/-- C8: the line-consuming scans are total functions of the buffer; with at
least one byte available at entry both return `Success`, stop at the same
position — just past the first newline in the remaining input when one
exists, otherwise at the end of the view — and `read_line_to` appends
exactly the consumed bytes to the destination; with no byte available both
return `End`. -/
theorem read_line_consumes_line (buf : List Nat) (pos : Nat) (dest : List Nat) :
    (¬ pos < buf.length →
        read_line ⟨buf, pos⟩ = (End, ⟨buf, pos⟩) ∧
        read_line_to ⟨buf, pos⟩ dest = (End, ⟨buf, pos⟩, dest)) ∧
    (pos < buf.length →
        ∃ q, read_line ⟨buf, pos⟩ = (Success (), ⟨buf, q⟩) ∧
          read_line_to ⟨buf, pos⟩ dest =
            (Success (), ⟨buf, q⟩, dest ++ (buf.drop pos).take (q - pos)) ∧
          pos < q ∧ q ≤ buf.length ∧
          ((buf[q - 1]? = some 10 ∧ ∀ i, pos ≤ i → i < q - 1 → buf[i]? ≠ some 10) ∨
           (q = buf.length ∧ ∀ i, pos ≤ i → i < buf.length → buf[i]? ≠ some 10))) := by
  constructor
  · intro h
    constructor <;> simp [read_line, read_line_to, h]
  · intro h
    obtain ⟨h1, h2, h3⟩ :=
      rlLoop_line_spec buf (buf.length - pos) pos le_rfl h
    refine ⟨rlLoop buf pos, ?_, ?_, h1, h2, h3⟩
    · simp [read_line, h]
    · simp [read_line_to, h, rltLoop_eq buf (buf.length - pos) pos dest le_rfl]

/-- Witness for C8 on the exhausted view. -/
theorem read_line_consumes_line_witness :
    read_line ⟨[], 0⟩ = (End, ⟨[], 0⟩) ∧
    read_line_to ⟨[], 0⟩ [] = (End, ⟨[], 0⟩, []) :=
  (read_line_consumes_line [] 0 []).1 (by decide)

/-- C10 (evaluation): with a byte available at entry, the scan-and-discard
`skip` returns `Success` even on a zero-length run (cursor unchanged) and
consumes a maximal run otherwise — but on the same zero-length-run input
`parse` does not return `NoParse` as claimed: its slice call panics
(`none`). -/
theorem skip_total_vs_parse_eval :
    skip isDigitByte (Cursor.new [97, 98, 99]) =
      (Success (), Cursor.new [97, 98, 99]) ∧
    skip isDigitByte (Cursor.new [49, 50, 97]) =
      (Success (), ⟨[49, 50, 97], 2⟩) ∧
    parse isDigitByte (Cursor.new [97, 98, 99]) = none := by
  refine ⟨?_, ?_, ?_⟩ <;>
    simp [skip, skipLoop, parse, parseLoop, Cursor.new, Cursor.phantom_mark,
      Cursor.slice_until_now_from, isDigitByte]

end MdRs
